import Mathlib

/-!
Verification of the streaming beat-detection pipeline in
`src/quickshell/assets/beat_detector.cpp` (class `EnhancedBeatDetector` and
`main`).  Single-precision floats of the source are modelled as exact
rationals (`ℚ`), `sqrt` as `Real.sqrt`.  The aubio analysis engine and the
PipeWire audio source are external collaborators: the engine's per-frame
output is an oracle input (`AnalysisResult`), the source's chunks are lists
of samples.
-/

/-- Peak absolute amplitude of a frame: the source folds
`max_amplitude = std::max(max_amplitude, std::abs(x))` starting from `0.0f`
(beat_detector.cpp lines 432-435). -/
def maxAbs (l : List ℚ) : ℚ :=
  l.foldl (fun m x => max m |x|) 0

/-- BPM smoothing with validity gating (beat_detector.cpp lines 472-476):
`if (bpm > 60 && bpm < 200) smoothed = 0.7*smoothed + 0.3*bpm;
else if (smoothed == 0) smoothed = bpm;` else unchanged. -/
def smooth_bpm (smoothed bpm : ℚ) : ℚ :=
  if 60 < bpm ∧ bpm < 200 then 7/10 * smoothed + 3/10 * bpm
  else if smoothed = 0 then bpm
  else smoothed

/-- Beat acceptance rule (line 479):
`bool is_beat = is_onset && tempo_confidence > CONFIDENCE_THRESHOLD;`
with `CONFIDENCE_THRESHOLD = 0.5f`. -/
def beatDecision (isOnset : Bool) (confidence : ℚ) : Bool :=
  isOnset && decide (1/2 < confidence)

/-- Bounded-FIFO insertion used for both `recent_bpms_` (cap 20, lines
495-498) and `bpm_stability_` (cap 5, lines 501-504): `push_back(x);
if (size() > cap) erase(begin());`. -/
def push_bounded (cap : ℕ) (l : List ℚ) (x : ℚ) : List ℚ :=
  let l2 := l ++ [x]
  if cap < l2.length then l2.tail else l2

/-- The quantity inside the square root of `get_bpm_variance` (lines
308-316): mean of the window, then the sum of squared deviations divided by
the window size. -/
def get_bpm_variance_q (l : List ℚ) : ℚ :=
  let mean := l.sum / l.length
  (l.map (fun bpm => (bpm - mean) * (bpm - mean))).sum / l.length

/-- `get_bpm_variance` (lines 306-317): returns `999.0f` on an empty
stability window, else `sqrt(variance / size)`. -/
noncomputable def get_bpm_variance (l : List ℚ) : ℝ :=
  if l = [] then 999 else Real.sqrt (get_bpm_variance_q l)

/-- Mean of a list, as written in the spec's variance formula. -/
def specMean (l : List ℚ) : ℚ := l.sum / l.length

/-- Modelled from the spec's words (§4.4 Step 3): the population standard
deviation `sqrt(mean((x - mean)^2))`, to be compared with the source's
`get_bpm_variance`. -/
noncomputable def popStdDev (l : List ℚ) : ℝ :=
  Real.sqrt (specMean (l.map (fun x => (x - specMean l) ^ 2)))

/-- Raw adaptive threshold (line 453):
`float adaptive_threshold = 0.15f + (0.15f * rms_energy);`. -/
def adaptive_threshold_raw (rmsEnergy : ℚ) : ℚ :=
  3/20 + 3/20 * rmsEnergy

/-- The value actually handed to the onset detector (line 454):
`aubio_onset_set_threshold(onset_.get(), std::min(adaptive_threshold, 0.3f));`. -/
def applied_onset_threshold (rmsEnergy : ℚ) : ℚ :=
  min (adaptive_threshold_raw rmsEnergy) (3/10)

/-- Per-frame output of the external aubio analysis engine (tempo, onset,
optional pitch), an oracle input to the pipeline. -/
structure AnalysisResult where
  bpm : ℚ
  confidence : ℚ
  isOnset : Bool
  pitch : ℚ
deriving DecidableEq

/-- The session state mutated by `process_audio` per full frame:
`smoothed_bpm_`, `recent_bpms_`, `bpm_stability_`, `frame_count_`,
`total_onsets_`, `total_beats_`. -/
structure DState where
  smoothed_bpm : ℚ
  recent_bpms : List ℚ
  bpm_stability : List ℚ
  frame_count : ℕ
  total_onsets : ℕ
  total_beats : ℕ
deriving DecidableEq

/-- Initial state set by the constructor (lines 118-122): all counters 0,
`smoothed_bpm_ = 0.0f`, empty histories. -/
def initState : DState :=
  { smoothed_bpm := 0
    recent_bpms := []
    bpm_stability := []
    frame_count := 0
    total_onsets := 0
    total_beats := 0 }

/-- A beat event as emitted on acceptance (lines 491-536): the values shown
and logged, plus the stability-window snapshot from which the carried
variance `get_bpm_variance window` is computed (lines 506 and 534). -/
structure BeatEvent where
  bpm : ℚ
  confidence : ℚ
  pitch : ℚ
  amplitude : ℚ
  window : List ℚ
deriving DecidableEq

/-- One full-frame step of `process_audio` (lines 428-541), with the
engine's output for the frame supplied as an oracle.  `frame_count_++`
(line 440) precedes the silence gate (line 443); a silent frame is skipped
before the engine is invoked; otherwise the BPM is smoothed, the beat
decision made, and on acceptance the histories are pushed and an event
emitted; `total_onsets_++` (line 539) runs on every non-skipped frame. -/
def processFrame (st : DState) (frame : List ℚ) (res : AnalysisResult) :
    DState × Option BeatEvent :=
  let amp := maxAbs frame
  let fc := st.frame_count + 1
  if amp < 1/100 then
    ({ st with frame_count := fc }, none)
  else
    let sm := smooth_bpm st.smoothed_bpm res.bpm
    if beatDecision res.isOnset res.confidence then
      let rb := push_bounded 20 st.recent_bpms sm
      let stab := push_bounded 5 st.bpm_stability sm
      ({ smoothed_bpm := sm
         recent_bpms := rb
         bpm_stability := stab
         frame_count := fc
         total_onsets := st.total_onsets + 1
         total_beats := st.total_beats + 1 },
       some { bpm := sm
              confidence := res.confidence
              pitch := res.pitch
              amplitude := amp
              window := stab })
    else
      ({ st with
         smoothed_bpm := sm
         frame_count := fc
         total_onsets := st.total_onsets + 1 }, none)

/-- Run the per-frame pipeline over a sequence of full frames, each paired
with the engine's output for it; collects the emitted beat events in
order. -/
def runFrames (st : DState) :
    List (List ℚ × AnalysisResult) → DState × List BeatEvent
  | [] => (st, [])
  | (f, r) :: rest =>
    let step := processFrame st f r
    let tail := runFrames step.1 rest
    (tail.1, (match step.2 with
              | none => tail.2
              | some e => e :: tail.2))

/-- Frame-accumulator state: the partially filled `sample_accumulator_`
(write offset `accumulated_samples_`) and the full frames handed
downstream so far. -/
structure AccState where
  pending : List ℚ
  frames : List (List ℚ)
deriving DecidableEq

/-- One sample of the accumulation loop (lines 425-428, 448, 540):
`sample_accumulator_[accumulated_samples_++] = x;` and when the offset
reaches `buf_size_` the buffer becomes a full frame and the offset resets
to zero (both the silent and the processed branch reset it). -/
def pushSample (bufSize : ℕ) (s : AccState) (x : ℚ) : AccState :=
  let p := s.pending ++ [x]
  if bufSize ≤ p.length then { pending := [], frames := s.frames ++ [p] }
  else { pending := p, frames := s.frames }

/-- Feed one variable-length chunk from the audio source (the
`for (i = 0; i < n_samples; ++i)` loop, line 425). -/
def pushChunk (bufSize : ℕ) (s : AccState) (chunk : List ℚ) : AccState :=
  chunk.foldl (pushSample bufSize) s

/-- Feed a sequence of chunks. -/
def pushChunks (bufSize : ℕ) (s : AccState) (chunks : List (List ℚ)) : AccState :=
  chunks.foldl (pushChunk bufSize) s

/-- Accumulator start state: empty buffer, offset 0 (line 121). -/
def initAcc : AccState := { pending := [], frames := [] }

/-- Every sample the accumulator has consumed, in order: the full frames
followed by the unflushed remainder. -/
def accContent (s : AccState) : List ℚ :=
  s.frames.flatten ++ s.pending

/-- `std::stoul` as invoked on a positional argument (line 637): optional
leading whitespace, optional sign, at least one decimal digit (else it
throws → `none`); the digit run's value, negated modulo 2^64 under a minus
sign; values beyond `ULONG_MAX` throw `out_of_range` → `none`. -/
def stoul (s : String) : Option ℕ :=
  let cs := s.data.dropWhile (fun c =>
    c = ' ' ∨ c = '\t' ∨ c = '\n' ∨ c = '\r' ∨ c = Char.ofNat 11 ∨ c = Char.ofNat 12)
  let signed : Bool × List Char :=
    match cs with
    | '-' :: t => (true, t)
    | '+' :: t => (false, t)
    | _ => (false, cs)
  let ds := signed.2.takeWhile Char.isDigit
  if ds = [] then none
  else
    let v := ds.foldl (fun a c => 10 * a + (c.toNat - 48)) 0
    if 2 ^ 64 - 1 < v then none
    else some (if signed.1 then (2 ^ 64 - v) % 2 ^ 64 else v)

/-- The guard `arg[0] != '-'` (line 635); on an empty `std::string`,
`arg[0]` is the null character, which is not a dash. -/
def startsWithDash (s : String) : Bool :=
  match s.data with
  | '-' :: _ => true
  | _ => false

/-- The option flags accumulated by `main`'s argument loop (lines
615-619). -/
structure Config where
  bufferSize : ℕ
  enableLogging : Bool
  enableStats : Bool
  enablePitch : Bool
  enableVisual : Bool
deriving DecidableEq

/-- Defaults set at the top of `main` (lines 615-619). -/
def defaultConfig : Config :=
  { bufferSize := 128
    enableLogging := true
    enableStats := true
    enablePitch := false
    enableVisual := true }

/-- Outcome of the argument loop: an early `return code` (recording whether
`print_usage()` ran before it) or fall-through to running the detector. -/
inductive CliResult where
  | exit (code : ℕ) (usage : Bool)
  | run (cfg : Config)
deriving DecidableEq

/-- The argument loop of `main` (lines 621-651): `--help`/`-h` print usage
and return 0; known flags toggle the config; a non-dash argument is parsed
with `std::stoul` (throw → error + return 1, no usage), converted to
`uint32_t` (mod 2^32), and range-checked against [64, 8192] (violation →
error + return 1, no usage); anything else is an unknown option → usage +
return 1. -/
def parseArgs : List String → Config → CliResult
  | [], cfg => CliResult.run cfg
  | a :: rest, cfg =>
    if a = "--help" ∨ a = "-h" then CliResult.exit 0 true
    else if a = "--no-log" then parseArgs rest { cfg with enableLogging := false }
    else if a = "--no-stats" then parseArgs rest { cfg with enableStats := false }
    else if a = "--pitch" then parseArgs rest { cfg with enablePitch := true }
    else if a = "--no-visual" then parseArgs rest { cfg with enableVisual := false }
    else if startsWithDash a = false then
      match stoul a with
      | none => CliResult.exit 1 false
      | some v =>
        let bs := v % 2 ^ 32
        if bs < 64 ∨ 8192 < bs then CliResult.exit 1 false
        else parseArgs rest { cfg with bufferSize := bs }
    else CliResult.exit 1 true


/-- Shape of a silence-skipped frame (lines 443-450): only `frame_count_`
moves, nothing downstream runs. -/
lemma processFrame_silent (st : DState) (frame : List ℚ) (res : AnalysisResult)
    (h : maxAbs frame < 1/100) :
    processFrame st frame res =
      ({ st with frame_count := st.frame_count + 1 }, none) := by
  simp only [processFrame]
  rw [if_pos h]

/-- Shape of a processed, accepted frame (lines 472-539). -/
lemma processFrame_beat (st : DState) (frame : List ℚ) (res : AnalysisResult)
    (h : ¬ maxAbs frame < 1/100)
    (hb : beatDecision res.isOnset res.confidence = true) :
    processFrame st frame res =
      ({ smoothed_bpm := smooth_bpm st.smoothed_bpm res.bpm
         recent_bpms := push_bounded 20 st.recent_bpms (smooth_bpm st.smoothed_bpm res.bpm)
         bpm_stability := push_bounded 5 st.bpm_stability (smooth_bpm st.smoothed_bpm res.bpm)
         frame_count := st.frame_count + 1
         total_onsets := st.total_onsets + 1
         total_beats := st.total_beats + 1 },
       some { bpm := smooth_bpm st.smoothed_bpm res.bpm
              confidence := res.confidence
              pitch := res.pitch
              amplitude := maxAbs frame
              window := push_bounded 5 st.bpm_stability (smooth_bpm st.smoothed_bpm res.bpm) }) := by
  simp only [processFrame]
  rw [if_neg h, if_pos hb]

/-- Shape of a processed, rejected frame (lines 472-479 and 539): the BPM
is still smoothed and the counters still move, but no history insertion and
no event. -/
lemma processFrame_nobeat (st : DState) (frame : List ℚ) (res : AnalysisResult)
    (h : ¬ maxAbs frame < 1/100)
    (hb : beatDecision res.isOnset res.confidence = false) :
    processFrame st frame res =
      ({ st with
         smoothed_bpm := smooth_bpm st.smoothed_bpm res.bpm
         frame_count := st.frame_count + 1
         total_onsets := st.total_onsets + 1 }, none) := by
  simp only [processFrame]
  rw [if_neg h, if_neg (by simp [hb])]

/-- The beat decision as a proposition. -/
lemma beatDecision_eq_true_iff (o : Bool) (c : ℚ) :
    beatDecision o c = true ↔ (o = true ∧ 1/2 < c) := by
  simp [beatDecision]

/-- C1: on every processed (non-silent) frame, a beat is accepted exactly
when the engine reported an onset AND the tempo confidence is strictly
greater than 0.5; in particular confidence exactly 0.5 never yields a
beat, and either conjunct failing suppresses it. -/
theorem beat_iff_onset_and_confident (st : DState) (frame : List ℚ)
    (res : AnalysisResult) (h : ¬ maxAbs frame < 1/100) :
    ((processFrame st frame res).2.isSome ↔
      (res.isOnset = true ∧ 1/2 < res.confidence)) ∧
    (res.confidence = 1/2 → (processFrame st frame res).2 = none) := by
  constructor
  · rcases hb : beatDecision res.isOnset res.confidence with _ | _
    · rw [processFrame_nobeat st frame res h hb]
      simp only [Option.isSome_none, Bool.false_eq_true, false_iff]
      intro hr
      have hbt := (beatDecision_eq_true_iff res.isOnset res.confidence).mpr hr
      rw [hbt] at hb
      exact Bool.noConfusion hb
    · rw [processFrame_beat st frame res h hb]
      simpa using (beatDecision_eq_true_iff res.isOnset res.confidence).mp hb
  · intro hc
    have hb : beatDecision res.isOnset res.confidence = false := by
      simp [beatDecision, hc]
    rw [processFrame_nobeat st frame res h hb]

/-- C1 witness: a concrete non-silent frame with an onset and confidence
0.8 satisfies the acceptance rule. -/
theorem beat_iff_onset_and_confident_witness :
    ¬ maxAbs [1] < 1/100 ∧
    (((processFrame initState [1]
        { bpm := 120, confidence := 4/5, isOnset := true, pitch := 0 }).2.isSome ↔
      (({ bpm := 120, confidence := 4/5, isOnset := true,
          pitch := 0 } : AnalysisResult).isOnset = true ∧
        1/2 < ({ bpm := 120, confidence := 4/5, isOnset := true,
                 pitch := 0 } : AnalysisResult).confidence)) ∧
     (({ bpm := 120, confidence := 4/5, isOnset := true,
         pitch := 0 } : AnalysisResult).confidence = 1/2 →
       (processFrame initState [1]
         { bpm := 120, confidence := 4/5, isOnset := true, pitch := 0 }).2 = none)) :=
  ⟨by norm_num [maxAbs],
   beat_iff_onset_and_confident initState [1]
     { bpm := 120, confidence := 4/5, isOnset := true, pitch := 0 }
     (by norm_num [maxAbs])⟩

/-- C2: on every processed frame the new smoothed BPM is `smooth_bpm` of
the old one and the incoming estimate; `smooth_bpm` applies the EMA
`0.7*old + 0.3*bpm` exactly when `60 < bpm < 200` (strict), bootstraps to
`bpm` (even out of range) when the prior estimate is 0, and is otherwise
unchanged; `smooth_bpm 120 130 = 123` and `smooth_bpm 0 45 = 45`. -/
theorem bpm_smoothing_rule (st : DState) (frame : List ℚ)
    (res : AnalysisResult) (s b : ℚ) (h : ¬ maxAbs frame < 1/100) :
    ((processFrame st frame res).1.smoothed_bpm =
      smooth_bpm st.smoothed_bpm res.bpm) ∧
    ((60 < b ∧ b < 200) → smooth_bpm s b = 7/10 * s + 3/10 * b) ∧
    (¬ (60 < b ∧ b < 200) → s = 0 → smooth_bpm s b = b) ∧
    (¬ (60 < b ∧ b < 200) → s ≠ 0 → smooth_bpm s b = s) ∧
    smooth_bpm 120 130 = 123 ∧ smooth_bpm 0 45 = 45 := by
  refine ⟨?_, fun hr => by rw [smooth_bpm, if_pos hr],
    fun hr hs => by rw [smooth_bpm, if_neg hr, if_pos hs],
    fun hr hs => by rw [smooth_bpm, if_neg hr, if_neg hs],
    by norm_num [smooth_bpm], by norm_num [smooth_bpm]⟩
  rcases hb : beatDecision res.isOnset res.confidence with _ | _
  · rw [processFrame_nobeat st frame res h hb]
  · rw [processFrame_beat st frame res h hb]

/-- C2 witness: concrete instances — in-range EMA 120/130 → 123, bootstrap
0/45 → 45, out-of-range 100/250 unchanged, and the pipeline link on a
concrete processed frame. -/
theorem bpm_smoothing_rule_witness :
    ¬ maxAbs [1] < 1/100 ∧
    ((processFrame initState [1]
        { bpm := 130, confidence := 0, isOnset := false, pitch := 0 }).1.smoothed_bpm =
      smooth_bpm initState.smoothed_bpm
        ({ bpm := 130, confidence := 0, isOnset := false,
           pitch := 0 } : AnalysisResult).bpm) ∧
    ((60 < (130 : ℚ) ∧ (130 : ℚ) < 200) →
      smooth_bpm 120 130 = 7/10 * 120 + 3/10 * 130) :=
  ⟨by norm_num [maxAbs],
   (bpm_smoothing_rule initState [1]
     { bpm := 130, confidence := 0, isOnset := false, pitch := 0 } 120 130
     (by norm_num [maxAbs])).1,
   fun hr => ((bpm_smoothing_rule initState [1]
     { bpm := 130, confidence := 0, isOnset := false, pitch := 0 } 120 130
     (by norm_num [maxAbs])).2.1 hr).trans (by norm_num)⟩

/-- C3: a full frame whose peak absolute sample is strictly below 0.01 is
skipped: the smoothing state, the BPM history and the stability window are
unchanged, no beat is emitted, and the analysis engine is never consulted —
the step's outcome is the same for every possible engine output. -/
theorem silent_frame_invisible (st : DState) (frame : List ℚ)
    (res : AnalysisResult) (h : maxAbs frame < 1/100) :
    (processFrame st frame res).1.smoothed_bpm = st.smoothed_bpm ∧
    (processFrame st frame res).1.recent_bpms = st.recent_bpms ∧
    (processFrame st frame res).1.bpm_stability = st.bpm_stability ∧
    (processFrame st frame res).2 = none ∧
    (∀ res2 : AnalysisResult,
      processFrame st frame res2 = processFrame st frame res) := by
  rw [processFrame_silent st frame res h]
  refine ⟨rfl, rfl, rfl, rfl, fun res2 => ?_⟩
  rw [processFrame_silent st frame res2 h]

/-- C3 witness: an all-silent concrete frame (peak 0.002) leaves the
downstream state of a concrete prior state untouched. -/
theorem silent_frame_invisible_witness :
    maxAbs [1/500, -1/500] < 1/100 ∧
    ((processFrame (⟨120, [120], [120], 3, 2, 1⟩ : DState) [1/500, -1/500]
        (⟨128, 9/10, true, 0⟩ : AnalysisResult)).1.smoothed_bpm = 120 ∧
     (processFrame (⟨120, [120], [120], 3, 2, 1⟩ : DState) [1/500, -1/500]
        (⟨128, 9/10, true, 0⟩ : AnalysisResult)).2 = none) :=
  ⟨by norm_num [maxAbs, abs_of_nonneg, abs_of_nonpos],
   (silent_frame_invisible (⟨120, [120], [120], 3, 2, 1⟩ : DState)
     [1/500, -1/500] (⟨128, 9/10, true, 0⟩ : AnalysisResult)
     (by norm_num [maxAbs, abs_of_nonneg, abs_of_nonpos])).1,
   (silent_frame_invisible (⟨120, [120], [120], 3, 2, 1⟩ : DState)
     [1/500, -1/500] (⟨128, 9/10, true, 0⟩ : AnalysisResult)
     (by norm_num [maxAbs, abs_of_nonneg, abs_of_nonpos])).2.2.2.1⟩

/-- C8: the onset-sensitivity threshold handed to the engine equals
`min(0.15 + 0.15*rms, 0.30)`, is monotonically non-decreasing in the RMS
energy, and is bounded above by 0.30 for all non-negative RMS values. -/
theorem adaptive_threshold_monotone_bounded (r r2 : ℚ)
    (h0 : 0 ≤ r) (h02 : 0 ≤ r2) :
    applied_onset_threshold r = min (3/20 + 3/20 * r) (3/10) ∧
    (r ≤ r2 → applied_onset_threshold r ≤ applied_onset_threshold r2) ∧
    applied_onset_threshold r ≤ 3/10 := by
  refine ⟨rfl, fun hle => ?_, min_le_right _ _⟩
  unfold applied_onset_threshold adaptive_threshold_raw
  exact min_le_min (by linarith) le_rfl

/-- C8 witness: the threshold at RMS 0.5 is below the threshold at RMS 2,
and both obey the formula and the 0.30 cap. -/
theorem adaptive_threshold_monotone_bounded_witness :
    (0 : ℚ) ≤ 1/2 ∧ (0 : ℚ) ≤ 2 ∧
    applied_onset_threshold (1/2) = min (3/20 + 3/20 * (1/2)) (3/10) ∧
    ((1 : ℚ)/2 ≤ 2 → applied_onset_threshold (1/2) ≤ applied_onset_threshold 2) ∧
    applied_onset_threshold (1/2) ≤ 3/10 :=
  ⟨by norm_num, by norm_num,
   (adaptive_threshold_monotone_bounded (1/2) 2 (by norm_num) (by norm_num)).1,
   (adaptive_threshold_monotone_bounded (1/2) 2 (by norm_num) (by norm_num)).2.1,
   (adaptive_threshold_monotone_bounded (1/2) 2 (by norm_num) (by norm_num)).2.2⟩

/-- C6: the variance query returns the population standard deviation
`sqrt(mean((x - mean)^2))` of the stability window (dividing by the count,
not count minus one), returns the sentinel 999 on an empty window, and
returns 0 on five equal values. -/
theorem variance_is_population_stddev :
    get_bpm_variance [] = 999 ∧
    (∀ l : List ℚ, l ≠ [] → get_bpm_variance l = popStdDev l) ∧
    get_bpm_variance (List.replicate 5 100) = 0 := by
  refine ⟨by rw [get_bpm_variance, if_pos rfl], fun l hl => ?_, ?_⟩
  · rw [get_bpm_variance, if_neg hl, popStdDev]
    congr 1
    norm_cast
    simp only [get_bpm_variance_q, specMean, List.length_map, pow_two]
  · rw [get_bpm_variance, if_neg (by simp)]
    have hq : get_bpm_variance_q (List.replicate 5 100) = 0 := by
      norm_num [get_bpm_variance_q, List.replicate, List.sum_cons]
    rw [hq]
    simp

/-- C6 witness: the source's variance of a concrete non-empty window
equals the spec's population standard deviation. -/
theorem variance_is_population_stddev_witness :
    get_bpm_variance [95, 100, 105, 100, 100] =
      popStdDev [95, 100, 105, 100, 100] :=
  variance_is_population_stddev.2.1 [95, 100, 105, 100, 100] (by simp)

/-- A bounded-FIFO insertion never leaves the list above capacity. -/
lemma push_bounded_length_le (cap : ℕ) (l : List ℚ) (x : ℚ)
    (h : l.length ≤ cap) : (push_bounded cap l x).length ≤ cap := by
  simp only [push_bounded]
  split
  · simpa using h
  · next hc =>
    simp only [List.length_append, List.length_singleton] at hc ⊢
    omega

/-- Inserting into a full bounded FIFO evicts exactly the oldest
element. -/
lemma push_bounded_full (cap : ℕ) (l : List ℚ) (x : ℚ)
    (h : l.length = cap) (h0 : 0 < cap) :
    push_bounded cap l x = l.tail ++ [x] := by
  simp only [push_bounded]
  rw [if_pos (by simp [h])]
  cases l with
  | nil => simp at h; omega
  | cons a t => simp

/-- Inserting below capacity evicts nothing. -/
lemma push_bounded_not_full (cap : ℕ) (l : List ℚ) (x : ℚ)
    (h : l.length < cap) : push_bounded cap l x = l ++ [x] := by
  simp only [push_bounded]
  rw [if_neg (by simp only [List.length_append, List.length_singleton]; omega)]

/-- A single pipeline step preserves the capacity bounds of both
histories. -/
lemma processFrame_hist_bounds (st : DState) (f : List ℚ) (r : AnalysisResult)
    (h1 : st.recent_bpms.length ≤ 20) (h2 : st.bpm_stability.length ≤ 5) :
    (processFrame st f r).1.recent_bpms.length ≤ 20 ∧
    (processFrame st f r).1.bpm_stability.length ≤ 5 := by
  by_cases hs : maxAbs f < 1/100
  · rw [processFrame_silent st f r hs]
    exact ⟨h1, h2⟩
  · rcases hb : beatDecision r.isOnset r.confidence with _ | _
    · rw [processFrame_nobeat st f r hs hb]
      exact ⟨h1, h2⟩
    · rw [processFrame_beat st f r hs hb]
      exact ⟨push_bounded_length_le _ _ _ h1, push_bounded_length_le _ _ _ h2⟩

/-- Running any frame sequence preserves the capacity bounds. -/
lemma runFrames_hist_bounds (inputs : List (List ℚ × AnalysisResult)) :
    ∀ st : DState, st.recent_bpms.length ≤ 20 → st.bpm_stability.length ≤ 5 →
      (runFrames st inputs).1.recent_bpms.length ≤ 20 ∧
      (runFrames st inputs).1.bpm_stability.length ≤ 5 := by
  induction inputs with
  | nil => intro st h1 h2; exact ⟨h1, h2⟩
  | cons p rest ih =>
    intro st h1 h2
    obtain ⟨f, r⟩ := p
    have hp := processFrame_hist_bounds st f r h1 h2
    simpa [runFrames] using ih (processFrame st f r).1 hp.1 hp.2

/-- C5: after any number of insertions from the initial state, BpmHistory
holds at most 20 elements and StabilityWindow at most 5; an insertion into
a full history evicts exactly the oldest element (strict FIFO, one
eviction), and an insertion below capacity evicts nothing. -/
theorem histories_bounded_fifo :
    (∀ inputs : List (List ℚ × AnalysisResult),
      (runFrames initState inputs).1.recent_bpms.length ≤ 20 ∧
      (runFrames initState inputs).1.bpm_stability.length ≤ 5) ∧
    (∀ (l : List ℚ) (x : ℚ), l.length ≤ 20 →
      (push_bounded 20 l x).length ≤ 20) ∧
    (∀ (l : List ℚ) (x : ℚ), l.length ≤ 5 →
      (push_bounded 5 l x).length ≤ 5) ∧
    (∀ (l : List ℚ) (x : ℚ), l.length = 20 →
      push_bounded 20 l x = l.tail ++ [x]) ∧
    (∀ (l : List ℚ) (x : ℚ), l.length = 5 →
      push_bounded 5 l x = l.tail ++ [x]) ∧
    (∀ (l : List ℚ) (x : ℚ), l.length < 20 →
      push_bounded 20 l x = l ++ [x]) ∧
    (∀ (l : List ℚ) (x : ℚ), l.length < 5 →
      push_bounded 5 l x = l ++ [x]) :=
  ⟨fun inputs => runFrames_hist_bounds inputs initState (by simp [initState])
      (by simp [initState]),
   fun l x h => push_bounded_length_le 20 l x h,
   fun l x h => push_bounded_length_le 5 l x h,
   fun l x h => push_bounded_full 20 l x h (by omega),
   fun l x h => push_bounded_full 5 l x h (by omega),
   fun l x h => push_bounded_not_full 20 l x h,
   fun l x h => push_bounded_not_full 5 l x h⟩

/-- C5 witness: inserting into a full window of 5 drops exactly the
oldest value, and a run of two accepted beats keeps both histories within
bounds. -/
theorem histories_bounded_fifo_witness :
    ((1 : ℚ) :: [2, 3, 4, 5] : List ℚ).length = 5 ∧
    push_bounded 5 [1, 2, 3, 4, 5] 6 = ([1, 2, 3, 4, 5] : List ℚ).tail ++ [6] ∧
    (runFrames initState
      [([1], ⟨128, 9/10, true, 0⟩), ([1], ⟨130, 9/10, true, 0⟩)]).1.recent_bpms.length ≤ 20 :=
  ⟨by decide,
   histories_bounded_fifo.2.2.2.2.1 [1, 2, 3, 4, 5] 6 (by decide),
   (histories_bounded_fifo.1
     [([1], ⟨128, 9/10, true, 0⟩), ([1], ⟨130, 9/10, true, 0⟩)]).1⟩

/-- C7 counterexample: a silence-skipped frame (all-zero samples, peak 0)
DOES increment the frame counter — `frame_count_++` at line 440 precedes
the silence gate at line 443 — contradicting the claim that skipped frames
increment neither counter.  The onset counter indeed stays at 0. -/
theorem silent_frame_increments_frame_count :
    maxAbs [0] < 1/100 ∧
    initState.frame_count = 0 ∧
    (processFrame initState [0] (⟨120, 1, true, 0⟩ : AnalysisResult)).1.frame_count = 1 ∧
    (processFrame initState [0] (⟨120, 1, true, 0⟩ : AnalysisResult)).1.total_onsets = 0 := by
  refine ⟨by norm_num [maxAbs], rfl, ?_, ?_⟩ <;>
    rw [processFrame_silent _ _ _ (by norm_num [maxAbs])] <;> rfl

/-- C7 amended: the onset counter `total_onsets_` is incremented exactly
once per processed (non-skipped) frame and not on silence-skipped frames,
regardless of beat acceptance; the frame counter `frame_count_`, however,
is incremented once per full frame, including silence-skipped frames. -/
theorem counters_increment_rule (st : DState) (frame : List ℚ)
    (res : AnalysisResult) :
    (processFrame st frame res).1.frame_count = st.frame_count + 1 ∧
    (maxAbs frame < 1/100 →
      (processFrame st frame res).1.total_onsets = st.total_onsets) ∧
    (¬ maxAbs frame < 1/100 →
      (processFrame st frame res).1.total_onsets = st.total_onsets + 1) := by
  by_cases hs : maxAbs frame < 1/100
  · rw [processFrame_silent st frame res hs]
    exact ⟨rfl, fun _ => rfl, fun hn => absurd hs hn⟩
  · rcases hb : beatDecision res.isOnset res.confidence with _ | _
    · rw [processFrame_nobeat st frame res hs hb]
      exact ⟨rfl, fun h => absurd h hs, fun _ => rfl⟩
    · rw [processFrame_beat st frame res hs hb]
      exact ⟨rfl, fun h => absurd h hs, fun _ => rfl⟩

/-- C7 witness: a concrete processed frame increments both counters once;
the hypotheses of the amended rule are discharged at a non-silent frame. -/
theorem counters_increment_rule_witness :
    (processFrame initState [1] (⟨120, 1, true, 0⟩ : AnalysisResult)).1.frame_count = 1 ∧
    (¬ maxAbs [1] < 1/100 →
      (processFrame initState [1] (⟨120, 1, true, 0⟩ : AnalysisResult)).1.total_onsets = 1) :=
  ⟨(counters_increment_rule initState [1] (⟨120, 1, true, 0⟩ : AnalysisResult)).1,
   fun h => (counters_increment_rule initState [1]
     (⟨120, 1, true, 0⟩ : AnalysisResult)).2.2 h⟩

/-- An argument that does not start with a dash is none of the recognized
flags. -/
lemma not_flag_of_no_dash {a : String} (ha : startsWithDash a = false) :
    a ≠ "--help" ∧ a ≠ "-h" ∧ a ≠ "--no-log" ∧ a ≠ "--no-stats" ∧
    a ≠ "--pitch" ∧ a ≠ "--no-visual" := by
  refine ⟨?_, ?_, ?_, ?_, ?_, ?_⟩ <;> rintro rfl <;> exact absurd ha (by decide)

/-- C9 counterexample: the positional argument "30" is below the valid
range [64, 8192]; the loop returns exit code 1 but `print_usage()` does
NOT run (line 639 prints only an error message), contradicting the claim
that an out-of-range buffer size exits "together with a usage message"
(unknown flags do get the usage text, line 648). -/
theorem invalid_buffer_size_prints_no_usage :
    stoul "30" = some 30 ∧ (30 : ℕ) < 64 ∧
    parseArgs ["30"] defaultConfig = CliResult.exit 1 false ∧
    parseArgs ["30"] defaultConfig ≠ CliResult.exit 1 true := by
  refine ⟨by decide, by decide, by decide, by decide⟩

/-- C9 amended: `--help`/`-h` exit 0 after printing usage; an unknown flag
(dash-initial, unrecognized) exits 1 after printing usage; a positional
argument that fails to parse as a number, or whose `uint32_t`-converted
value lies outside [64, 8192], exits 1 with an error message but WITHOUT
the usage text. -/
theorem cli_exit_codes (a : String) (args : List String) (cfg : Config)
    (v : ℕ) :
    (parseArgs ("--help" :: args) cfg = CliResult.exit 0 true) ∧
    (parseArgs ("-h" :: args) cfg = CliResult.exit 0 true) ∧
    (startsWithDash a = true →
      a ∉ ["--help", "-h", "--no-log", "--no-stats", "--pitch", "--no-visual"] →
      parseArgs (a :: args) cfg = CliResult.exit 1 true) ∧
    (startsWithDash a = false → stoul a = none →
      parseArgs (a :: args) cfg = CliResult.exit 1 false) ∧
    (startsWithDash a = false → stoul a = some v →
      (v % 2 ^ 32 < 64 ∨ 8192 < v % 2 ^ 32) →
      parseArgs (a :: args) cfg = CliResult.exit 1 false) := by
  refine ⟨by simp [parseArgs], by simp [parseArgs], ?_, ?_, ?_⟩
  · intro hd hmem
    simp only [List.mem_cons, List.mem_singleton, List.not_mem_nil] at hmem
    push_neg at hmem
    obtain ⟨h1, h2, h3, h4, h5, h6⟩ := hmem
    simp [parseArgs, h1, h2, h3, h4, h5, h6, hd]
  · intro hd hs
    obtain ⟨h1, h2, h3, h4, h5, h6⟩ := not_flag_of_no_dash hd
    simp [parseArgs, h1, h2, h3, h4, h5, h6, hd, hs]
  · intro hd hs hrange
    obtain ⟨h1, h2, h3, h4, h5, h6⟩ := not_flag_of_no_dash hd
    simp only [parseArgs, h1, h2, h3, h4, h5, h6, hd, hs, if_false, if_true,
      or_self, ite_false, ite_true, reduceCtorEq, reduceIte]
    split
    · rfl
    · next hcon => exact absurd (by simpa using hrange) hcon

/-- C9 witness: concrete invocations — `--help` exits 0 with usage, the
unknown flag `-x` exits 1 with usage, the unparsable argument `abc` and
the out-of-range size `30` exit 1 without usage. -/
theorem cli_exit_codes_witness :
    (parseArgs ["--help"] defaultConfig = CliResult.exit 0 true) ∧
    (startsWithDash "-x" = true →
      "-x" ∉ ["--help", "-h", "--no-log", "--no-stats", "--pitch", "--no-visual"] →
      parseArgs ["-x"] defaultConfig = CliResult.exit 1 true) ∧
    (startsWithDash "30" = false → stoul "30" = some 30 →
      ((30 : ℕ) % 2 ^ 32 < 64 ∨ 8192 < (30 : ℕ) % 2 ^ 32) →
      parseArgs ["30"] defaultConfig = CliResult.exit 1 false) :=
  ⟨(cli_exit_codes "-x" [] defaultConfig 0).1,
   fun hd hmem => (cli_exit_codes "-x" [] defaultConfig 0).2.2.1 hd hmem,
   fun hd hs hr => (cli_exit_codes "30" [] defaultConfig 30).2.2.2.2 hd hs hr⟩

/-- A bounded-FIFO insertion with positive capacity never yields an empty
list. -/
lemma push_bounded_ne_nil (cap : ℕ) (l : List ℚ) (x : ℚ) (h0 : 0 < cap) :
    push_bounded cap l x ≠ [] := by
  simp only [push_bounded]
  split
  · next hc =>
    intro he
    have hlen := congrArg List.length he
    simp only [List.length_tail, List.length_append, List.length_singleton,
      List.length_nil] at hlen
    simp only [List.length_append, List.length_singleton] at hc
    omega
  · simp

/-- Any event a pipeline step emits carries the stability window as
updated by that step. -/
lemma processFrame_event_window (st : DState) (f : List ℚ)
    (r : AnalysisResult) (ev : BeatEvent)
    (h : (processFrame st f r).2 = some ev) :
    ev.window = push_bounded 5 st.bpm_stability
      (smooth_bpm st.smoothed_bpm r.bpm) := by
  by_cases hs : maxAbs f < 1/100
  · rw [processFrame_silent st f r hs] at h
    exact Option.noConfusion h
  · rcases hb : beatDecision r.isOnset r.confidence with _ | _
    · rw [processFrame_nobeat st f r hs hb] at h
      exact Option.noConfusion h
    · rw [processFrame_beat st f r hs hb] at h
      cases Option.some.inj h
      rfl

/-- Along any run that starts within the stability-window capacity, every
emitted event's window snapshot is non-empty and within capacity 5. -/
lemma runFrames_event_window_bounds (inputs : List (List ℚ × AnalysisResult)) :
    ∀ st : DState, st.bpm_stability.length ≤ 5 →
      ∀ e ∈ (runFrames st inputs).2, e.window ≠ [] ∧ e.window.length ≤ 5 := by
  induction inputs with
  | nil => intro st hst e he; simp [runFrames] at he
  | cons p rest ih =>
    intro st hst e he
    obtain ⟨f, r⟩ := p
    have hst2 : (processFrame st f r).1.bpm_stability.length ≤ 5 := by
      by_cases hs : maxAbs f < 1/100
      · rw [processFrame_silent st f r hs]; exact hst
      · rcases hb : beatDecision r.isOnset r.confidence with _ | _
        · rw [processFrame_nobeat st f r hs hb]; exact hst
        · rw [processFrame_beat st f r hs hb]
          exact push_bounded_length_le 5 _ _ hst
    rcases hev : (processFrame st f r).2 with _ | ev
    · simp only [runFrames, hev] at he
      exact ih (processFrame st f r).1 hst2 e he
    · simp only [runFrames, hev, List.mem_cons] at he
      rcases he with rfl | he
      · rw [processFrame_event_window st f r e hev]
        exact ⟨push_bounded_ne_nil 5 _ _ (by omega),
          push_bounded_length_le 5 _ _ hst⟩
      · exact ih (processFrame st f r).1 hst2 e he

/-- C10 amended: the variance carried by every emitted beat event (and
written to the log) is computed over a non-empty stability window of
between 1 and 5 elements — the smoothed BPM is appended before the
variance query — so the empty-window sentinel branch of
`get_bpm_variance` is never the source of an emitted variance; the carried
value always comes from the square-root branch (although the numeric value
999 can still coincide with it, see the counterexample). -/
theorem beat_variance_from_nonempty_window
    (inputs : List (List ℚ × AnalysisResult)) :
    ∀ e ∈ (runFrames initState inputs).2,
      e.window ≠ [] ∧ 1 ≤ e.window.length ∧ e.window.length ≤ 5 ∧
      get_bpm_variance e.window = Real.sqrt (get_bpm_variance_q e.window) := by
  intro e he
  obtain ⟨hne, hlen⟩ :=
    runFrames_event_window_bounds inputs initState (by simp [initState]) e he
  exact ⟨hne, List.length_pos.mpr hne, hlen,
    by rw [get_bpm_variance, if_neg hne]⟩

/-- C10 witness: the single beat emitted by a concrete one-frame run has a
one-element window and a square-root-branch variance. -/
theorem beat_variance_from_nonempty_window_witness :
    (⟨30, 9/10, 0, 1, [30]⟩ : BeatEvent) ∈
      (runFrames initState [([1], (⟨100, 9/10, true, 0⟩ : AnalysisResult))]).2 ∧
    ((⟨30, 9/10, 0, 1, [30]⟩ : BeatEvent).window ≠ [] ∧
     1 ≤ (⟨30, 9/10, 0, 1, [30]⟩ : BeatEvent).window.length ∧
     (⟨30, 9/10, 0, 1, [30]⟩ : BeatEvent).window.length ≤ 5 ∧
     get_bpm_variance (⟨30, 9/10, 0, 1, [30]⟩ : BeatEvent).window =
       Real.sqrt (get_bpm_variance_q (⟨30, 9/10, 0, 1, [30]⟩ : BeatEvent).window)) := by
  have hmem : (⟨30, 9/10, 0, 1, [30]⟩ : BeatEvent) ∈
      (runFrames initState [([1], (⟨100, 9/10, true, 0⟩ : AnalysisResult))]).2 := by
    norm_num [runFrames, processFrame, initState, maxAbs, beatDecision,
      smooth_bpm, push_bounded]
  exact ⟨hmem, beat_variance_from_nonempty_window
    [([1], (⟨100, 9/10, true, 0⟩ : AnalysisResult))] _ hmem⟩

/-- C10 counterexample: the numeric value 999 CAN appear as the variance
carried by an emitted beat.  Two accepted beats with engine BPM readings 0
and 1998 (both out of smoothing range, both bootstrapped) leave the
stability window at [0, 1998], whose population standard deviation is
exactly sqrt(998001) = 999 — the same number as the empty-window sentinel,
refuting the claim that 999 never appears as an emitted variance. -/
theorem beat_event_variance_999 :
    ((runFrames initState
        [([1], (⟨0, 4/5, true, 0⟩ : AnalysisResult)),
         ([1], (⟨1998, 4/5, true, 0⟩ : AnalysisResult))]).2.map
      (fun e => get_bpm_variance e.window)) = [0, 999] := by
  have hE : (runFrames initState
      [([1], (⟨0, 4/5, true, 0⟩ : AnalysisResult)),
       ([1], (⟨1998, 4/5, true, 0⟩ : AnalysisResult))]).2 =
      [(⟨0, 4/5, 0, 1, [0]⟩ : BeatEvent),
       (⟨1998, 4/5, 0, 1, [0, 1998]⟩ : BeatEvent)] := by
    norm_num [runFrames, processFrame, initState, maxAbs, beatDecision,
      smooth_bpm, push_bounded]
  rw [hE]
  simp only [List.map_cons, List.map_nil, List.cons.injEq, and_true]
  refine ⟨?_, ?_⟩
  · rw [get_bpm_variance, if_neg (by simp)]
    have hq : get_bpm_variance_q [0] = 0 := by
      norm_num [get_bpm_variance_q]
    rw [hq]
    simp
  · rw [get_bpm_variance, if_neg (by simp)]
    have hq : get_bpm_variance_q [0, 1998] = 998001 := by
      norm_num [get_bpm_variance_q]
    rw [hq]
    have hc : ((998001 : ℚ) : ℝ) = 999 ^ 2 := by norm_num
    rw [hc]
    exact Real.sqrt_sq (by norm_num)

/-- Feeding one sample appends it to the accumulator's consumed content. -/
lemma pushSample_content (bufSize : ℕ) (s : AccState) (x : ℚ) :
    accContent (pushSample bufSize s x) = accContent s ++ [x] := by
  simp only [pushSample, accContent]
  split
  · simp [List.append_assoc]
  · simp [List.append_assoc]

/-- Feeding one sample keeps the write offset below the frame size and
every produced frame exactly full. -/
lemma pushSample_bounds (bufSize : ℕ) (h0 : 0 < bufSize) (s : AccState)
    (x : ℚ) (hp : s.pending.length < bufSize)
    (hf : ∀ f ∈ s.frames, f.length = bufSize) :
    (pushSample bufSize s x).pending.length < bufSize ∧
    ∀ f ∈ (pushSample bufSize s x).frames, f.length = bufSize := by
  simp only [pushSample]
  split
  · next hc =>
    refine ⟨by simpa using h0, fun f hfm => ?_⟩
    rcases List.mem_append.mp hfm with hfm | hfm
    · exact hf f hfm
    · simp only [List.mem_singleton] at hfm
      subst hfm
      simp only [List.length_append, List.length_singleton] at hc ⊢
      omega
  · next hc =>
    refine ⟨?_, hf⟩
    simp only [List.length_append, List.length_singleton] at hc ⊢
    omega

/-- Feeding a chunk appends it, in order, to the consumed content. -/
lemma pushChunk_content (bufSize : ℕ) (c : List ℚ) :
    ∀ s : AccState, accContent (pushChunk bufSize s c) = accContent s ++ c := by
  induction c with
  | nil => intro s; simp [pushChunk]
  | cons y ys ih =>
    intro s
    have hstep : pushChunk bufSize s (y :: ys) =
        pushChunk bufSize (pushSample bufSize s y) ys := by
      simp [pushChunk]
    rw [hstep, ih, pushSample_content]
    simp

/-- Feeding a chunk preserves the accumulator invariants. -/
lemma pushChunk_bounds (bufSize : ℕ) (h0 : 0 < bufSize) (c : List ℚ) :
    ∀ s : AccState, s.pending.length < bufSize →
      (∀ f ∈ s.frames, f.length = bufSize) →
      (pushChunk bufSize s c).pending.length < bufSize ∧
      ∀ f ∈ (pushChunk bufSize s c).frames, f.length = bufSize := by
  induction c with
  | nil => intro s hp hf; simpa [pushChunk] using And.intro hp hf
  | cons y ys ih =>
    intro s hp hf
    have hb := pushSample_bounds bufSize h0 s y hp hf
    have hstep : pushChunk bufSize s (y :: ys) =
        pushChunk bufSize (pushSample bufSize s y) ys := by
      simp [pushChunk]
    rw [hstep]
    exact ih _ hb.1 hb.2

/-- Feeding a chunk sequence appends its concatenation to the consumed
content. -/
lemma pushChunks_content (bufSize : ℕ) (chunks : List (List ℚ)) :
    ∀ s : AccState,
      accContent (pushChunks bufSize s chunks) = accContent s ++ chunks.flatten := by
  induction chunks with
  | nil => intro s; simp [pushChunks]
  | cons c cs ih =>
    intro s
    have hstep : pushChunks bufSize s (c :: cs) =
        pushChunks bufSize (pushChunk bufSize s c) cs := by
      simp [pushChunks]
    rw [hstep, ih, pushChunk_content]
    simp

/-- Feeding a chunk sequence preserves the accumulator invariants. -/
lemma pushChunks_bounds (bufSize : ℕ) (h0 : 0 < bufSize)
    (chunks : List (List ℚ)) :
    ∀ s : AccState, s.pending.length < bufSize →
      (∀ f ∈ s.frames, f.length = bufSize) →
      (pushChunks bufSize s chunks).pending.length < bufSize ∧
      ∀ f ∈ (pushChunks bufSize s chunks).frames, f.length = bufSize := by
  induction chunks with
  | nil => intro s hp hf; simpa [pushChunks] using And.intro hp hf
  | cons c cs ih =>
    intro s hp hf
    have hb := pushChunk_bounds bufSize h0 c s hp hf
    have hstep : pushChunks bufSize s (c :: cs) =
        pushChunks bufSize (pushChunk bufSize s c) cs := by
      simp [pushChunks]
    rw [hstep]
    exact ih _ hb.1 hb.2

/-- The concatenation of equal-length frames has their total length. -/
lemma flatten_length_of_full (b : ℕ) (fs : List (List ℚ))
    (h : ∀ f ∈ fs, f.length = b) : fs.flatten.length = fs.length * b := by
  induction fs with
  | nil => simp
  | cons f gs ih =>
    simp only [List.flatten_cons, List.length_append, List.length_cons]
    rw [h f (by simp), ih (fun g hg => h g (by simp [hg]))]
    ring

/-- C4: from the initial accumulator state, any chunk sequence is split
into fully-filled frames in arrival order — the frames' concatenation
followed by the held remainder is exactly the input, the remainder stays
strictly below the frame size, every produced frame has exactly `bufSize`
samples, and when the total sample count is a multiple of `bufSize` the
accumulator produces exactly `total / bufSize` frames whose concatenation
is the whole input (no sample dropped, duplicated or reordered). -/
theorem frame_accumulator_exact (bufSize : ℕ) (chunks : List (List ℚ))
    (h0 : 0 < bufSize) :
    accContent (pushChunks bufSize initAcc chunks) = chunks.flatten ∧
    (pushChunks bufSize initAcc chunks).pending.length < bufSize ∧
    (∀ f ∈ (pushChunks bufSize initAcc chunks).frames, f.length = bufSize) ∧
    (bufSize ∣ chunks.flatten.length →
      (pushChunks bufSize initAcc chunks).pending = [] ∧
      (pushChunks bufSize initAcc chunks).frames.flatten = chunks.flatten ∧
      (pushChunks bufSize initAcc chunks).frames.length =
        chunks.flatten.length / bufSize) := by
  have hcontent : accContent (pushChunks bufSize initAcc chunks) = chunks.flatten := by
    rw [pushChunks_content]
    simp [accContent, initAcc]
  have hbounds := pushChunks_bounds bufSize h0 chunks initAcc
    (by simpa [initAcc] using h0) (by simp [initAcc])
  refine ⟨hcontent, hbounds.1, hbounds.2, fun hdvd => ?_⟩
  have hflat : (pushChunks bufSize initAcc chunks).frames.flatten.length =
      (pushChunks bufSize initAcc chunks).frames.length * bufSize :=
    flatten_length_of_full bufSize _ hbounds.2
  have hlen : (pushChunks bufSize initAcc chunks).frames.flatten.length +
      (pushChunks bufSize initAcc chunks).pending.length =
      chunks.flatten.length := by
    have hcl := congrArg List.length hcontent
    simpa [accContent] using hcl
  have hdvdflat : bufSize ∣ (pushChunks bufSize initAcc chunks).frames.flatten.length :=
    ⟨(pushChunks bufSize initAcc chunks).frames.length, by rw [hflat]; ring⟩
  have hdvdpend : bufSize ∣ (pushChunks bufSize initAcc chunks).pending.length := by
    have hsub : chunks.flatten.length -
        (pushChunks bufSize initAcc chunks).frames.flatten.length =
        (pushChunks bufSize initAcc chunks).pending.length := by omega
    rw [← hsub]
    exact Nat.dvd_sub' hdvd hdvdflat
  have hpend0 : (pushChunks bufSize initAcc chunks).pending.length = 0 :=
    Nat.eq_zero_of_dvd_of_lt hdvdpend hbounds.1
  have hpendnil : (pushChunks bufSize initAcc chunks).pending = [] :=
    List.length_eq_zero.mp hpend0
  have hframes : (pushChunks bufSize initAcc chunks).frames.flatten = chunks.flatten := by
    have := hcontent
    rw [accContent, hpendnil] at this
    simpa using this
  refine ⟨hpendnil, hframes, ?_⟩
  have htot : chunks.flatten.length =
      (pushChunks bufSize initAcc chunks).frames.length * bufSize := by omega
  rw [htot]
  exact (Nat.mul_div_cancel _ h0).symm

/-- C4 witness: frame size 2 over chunks [1,2,3] and [4] (total 4 samples,
a multiple of 2) yields exactly two full frames covering the input in
order, with nothing held back. -/
theorem frame_accumulator_exact_witness :
    (0 : ℕ) < 2 ∧ (2 : ℕ) ∣ ([[1, 2, 3], [4]] : List (List ℚ)).flatten.length ∧
    (pushChunks 2 initAcc [[1, 2, 3], [4]]).pending = [] ∧
    (pushChunks 2 initAcc [[1, 2, 3], [4]]).frames.flatten =
      ([[1, 2, 3], [4]] : List (List ℚ)).flatten ∧
    (pushChunks 2 initAcc [[1, 2, 3], [4]]).frames.length =
      ([[1, 2, 3], [4]] : List (List ℚ)).flatten.length / 2 :=
  ⟨by decide, by decide,
   (frame_accumulator_exact 2 [[1, 2, 3], [4]] (by decide)).2.2.2 (by decide)⟩
